import Mathlib

/-!
Verification development for `fetch_top_traders.py`, a linear
fetch/transform/aggregate/persist pipeline: it fetches a trading
leaderboard, ranks traders by PnL over the "day" and "week" windows,
fetches open positions for the ranked addresses, and writes one JSON
snapshot.

Modelling conventions:
- Python floats obtained via `float(...)` are modelled as rationals
  (`Rat`); the claims are about ordering, filtering and defaults, not
  about rounding.
- A JSON scalar that may be fed to `float(...)` is a `PyVal`: a number,
  a numeric string (on which `float` succeeds), or a non-numeric string
  (on which `float` raises `ValueError`).
- A Python function that may raise returns `Option`: `none` models an
  uncaught exception escaping the function.
- Missing dictionary keys are `Option` fields; the `.get(key, default)`
  defaults of the source are applied at the use sites, as in the code.
-/

/-- A JSON scalar as seen by `float(...)`: a number, a string `float`
accepts, or a string `float` rejects (raising `ValueError`). -/
inductive PyVal where
  | num (q : Rat)
  | strNum (q : Rat)
  | strBad (s : String)
deriving DecidableEq

/-- Python `float(v)` on a JSON scalar: succeeds on numbers and numeric
strings, raises (`none`) on non-numeric strings. -/
def pyFloat : PyVal → Option Rat
  | .num q => some q
  | .strNum q => some q
  | .strBad _ => none

/-- Models `float(d.get(key, 0))`: a missing field defaults to `0`
(so `float` succeeds with `0`); a present field goes through `float`. -/
def coerceField : Option PyVal → Option Rat
  | none => some 0
  | some v => pyFloat v

/-- One `[windowKey, {pnl, roi, vlm}]` pair of `windowPerformances`. -/
structure WPEntry where
  key : String
  pnl : Option PyVal
  roi : Option PyVal
  vlm : Option PyVal
deriving DecidableEq

/-- A raw trader record from `leaderboardRows`. -/
structure Trader where
  ethAddress : Option String
  displayName : Option String
  accountValue : Option PyVal
  windowPerformances : Option (List WPEntry)
deriving DecidableEq

/-- The `{pnl, roi, volume}` dict returned by `get_pnl_data`. -/
structure PnlData where
  pnl : Rat
  roi : Rat
  volume : Rat
deriving DecidableEq

/-- The loop of `get_pnl_data` over `trader.get('windowPerformances', [])`:
return the coerced triple of the first entry whose key matches, `none`
modelling a `ValueError` raised by `float` on a present non-numeric field. -/
def findPnl (period : String) : List WPEntry → Option PnlData
  | [] => some ⟨0, 0, 0⟩
  | e :: rest =>
    if e.key == period then
      match coerceField e.pnl, coerceField e.roi, coerceField e.vlm with
      | some p, some r, some v => some ⟨p, r, v⟩
      | _, _, _ => none
    else findPnl period rest

/-- `get_pnl_data(trader, period)`: extract PnL data for a window.
Returns `{pnl:0, roi:0, volume:0}` when no entry matches. -/
def get_pnl_data (trader : Trader) (period : String) : Option PnlData :=
  findPnl period (trader.windowPerformances.getD [])

/-- One processed trader dict built by `process_traders`. -/
structure RankedTrader where
  address : String
  displayName : Option String
  accountValue : Rat
  pnl : Rat
  roi : Rat
  volume : Rat
deriving DecidableEq

/-- The dict literal of `process_traders`: `float(trader.get('accountValue', 0))`
may raise, hence `Option`. -/
def toRanked (trader : Trader) (pd : PnlData) : Option RankedTrader := do
  let av ← coerceField trader.accountValue
  pure ⟨trader.ethAddress.getD "", trader.displayName, av, pd.pnl, pd.roi, pd.volume⟩

/-- The filter/map loop of `process_traders`: skip traders whose extracted
pnl is zero, map the rest to ranked records; `none` models an exception
escaping the loop. -/
def build_processed : List Trader → String → Option (List RankedTrader)
  | [], _ => some []
  | trader :: rest, period => do
    let pd ← get_pnl_data trader period
    if pd.pnl = 0 then
      build_processed rest period
    else do
      let r ← toRanked trader pd
      let rs ← build_processed rest period
      pure (r :: rs)

/-- Stable descending insertion by pnl: `r` is placed before the first
element whose pnl is `≤ r.pnl`, so an earlier input element precedes
later elements of equal pnl. -/
def insertDesc (r : RankedTrader) : List RankedTrader → List RankedTrader
  | [] => [r]
  | x :: xs => if x.pnl ≤ r.pnl then r :: x :: xs else x :: insertDesc r xs

/-- Models `processed.sort(key=lambda x: x['pnl'], reverse=True)`.
CPython's sort is stable and `reverse=True` keeps ties in input order, so
its output is the unique descending-by-pnl reordering in which elements of
equal pnl keep their input order; this stable insertion sort computes
exactly that reordering. -/
def sortByPnlDesc : List RankedTrader → List RankedTrader
  | [] => []
  | x :: xs => insertDesc x (sortByPnlDesc xs)

/-- `process_traders(traders, period, top_n)`: filter/map, sort descending
by pnl, return the first `top_n`. -/
def process_traders (traders : List Trader) (period : String) (top_n : Nat) :
    Option (List RankedTrader) :=
  (build_processed traders period).map (fun ps => (sortByPnlDesc ps).take top_n)

/-- The `leverage` sub-dict of an upstream position object. -/
structure LeverageData where
  value : Option Rat
  type : Option String
deriving DecidableEq

/-- The `position` object inside one element of `assetPositions`. -/
structure RawPosition where
  szi : Option PyVal
  coin : Option String
  entryPx : Option String
  leverage : Option LeverageData
  positionValue : Option String
  unrealizedPnl : Option String
  returnOnEquity : Option String
  liquidationPx : Option String
deriving DecidableEq

/-- One element of `assetPositions`; `position = none` models a missing
`position` key or an empty (falsy) `position` dict, both skipped by
`if pos:`. -/
structure AssetPosition where
  position : Option RawPosition
deriving DecidableEq

/-- A normalized position dict appended by `fetch_positions`. -/
structure Position where
  coin : String
  direction : String
  size : Rat
  entryPx : String
  leverage : Rat
  leverageType : String
  positionValue : String
  unrealizedPnl : String
  returnOnEquity : String
  liquidationPx : String
deriving DecidableEq

/-- The dict appended by `fetch_positions` for a non-zero signed size. -/
def mkPosition (pos : RawPosition) (szi : Rat) : Position :=
  let leverage_data := pos.leverage.getD ⟨none, none⟩
  ⟨pos.coin.getD "",
   if 0 < szi then "Long" else "Short",
   |szi|,
   pos.entryPx.getD "0",
   leverage_data.value.getD 0,
   leverage_data.type.getD "cross",
   pos.positionValue.getD "0",
   pos.unrealizedPnl.getD "0",
   pos.returnOnEquity.getD "0",
   pos.liquidationPx.getD ""⟩

/-- The extraction loop of `fetch_positions` over `assetPositions`:
skip missing/empty position objects and zero signed sizes; `none` models
`float(pos.get('szi', 0))` raising inside the loop. -/
def extract_positions : List AssetPosition → Option (List Position)
  | [] => some []
  | ap :: rest =>
    match ap.position with
    | none => extract_positions rest
    | some pos => do
      let szi ← coerceField pos.szi
      if szi = 0 then
        extract_positions rest
      else do
        let ps ← extract_positions rest
        pure (mkPosition pos szi :: ps)

/-- Outcome of one HTTP fetch: a parsed body, or any network / HTTP-status
/ JSON-decode failure. -/
inductive FetchResult (α : Type) where
  | success (body : α)
  | failure
deriving DecidableEq

/-- The JSON body of the leaderboard endpoint: `leaderboardRows` may be
absent. -/
structure LeaderboardBody where
  leaderboardRows : Option (List Trader)
deriving DecidableEq

/-- `fetch_leaderboard()`: returns `data.get('leaderboardRows', [])` on
success and `[]` on any error (caught by the `except` block). -/
def fetch_leaderboard (resp : FetchResult LeaderboardBody) : List Trader :=
  match resp with
  | .failure => []
  | .success body => body.leaderboardRows.getD []

/-- `fetch_positions(address)` given the fetch outcome for that address:
any error — network, status, decode, or a `ValueError` raised while
extracting — is caught and yields `[]`. -/
def fetch_positions (resp : FetchResult (List AssetPosition)) : List Position :=
  match resp with
  | .failure => []
  | .success aps => (extract_positions aps).getD []

/-- A ranked trader after `trader['positions'] = ...` in `main`. -/
structure EnrichedTrader extends RankedTrader where
  positions : List Position
deriving DecidableEq

/-- The JSON snapshot written to `data.json`. -/
structure Snapshot where
  daily : List EnrichedTrader
  weekly : List EnrichedTrader
  lastUpdated : String
deriving DecidableEq

/-- The environment `main` runs against: the leaderboard fetch outcome,
the positions fetch outcome per address, and the current UTC time string. -/
structure World where
  leaderboardResp : FetchResult LeaderboardBody
  positionsResp : String → FetchResult (List AssetPosition)
  utcNow : String

/-- `trader['positions'] = positions_map.get(trader['address'], [])`. -/
def attachPositions (positions_map : List (String × List Position))
    (t : RankedTrader) : EnrichedTrader :=
  ⟨t, (positions_map.lookup t.address).getD []⟩

/-- `main()`: `some` holds the snapshot written to `data.json`; `none`
means the run ended without writing the file (the early `return` on an
empty leaderboard, or an uncaught exception). The Python `set` of
addresses is modelled by `dedup`: `positions_map` is keyed by address, so
set-iteration order does not affect the snapshot. -/
def mainRun (w : World) : Option Snapshot :=
  let traders := fetch_leaderboard w.leaderboardResp
  if traders.isEmpty then
    none
  else do
    let daily_top ← process_traders traders "day" 10
    let weekly_top ← process_traders traders "week" 10
    let all_addresses := ((daily_top ++ weekly_top).map (fun t => t.address)).dedup
    let positions_map := all_addresses.map (fun a => (a, fetch_positions (w.positionsResp a)))
    pure ⟨daily_top.map (attachPositions positions_map),
          weekly_top.map (attachPositions positions_map),
          w.utcNow ++ "Z"⟩

/-! ### Sorting lemmas for the stable descending insertion sort -/

theorem insertDesc_perm (r : RankedTrader) (l : List RankedTrader) :
    List.Perm (insertDesc r l) (r :: l) := by
  induction l with
  | nil => exact List.Perm.refl _
  | cons x xs ih =>
    simp only [insertDesc]
    split
    · exact List.Perm.refl _
    · exact (ih.cons x).trans (List.Perm.swap r x xs)

theorem sortByPnlDesc_perm (l : List RankedTrader) :
    List.Perm (sortByPnlDesc l) l := by
  induction l with
  | nil => exact List.Perm.refl _
  | cons x xs ih => exact (insertDesc_perm x (sortByPnlDesc xs)).trans (ih.cons x)

theorem pairwise_insertDesc {l : List RankedTrader} (r : RankedTrader)
    (h : l.Pairwise (fun a b => b.pnl ≤ a.pnl)) :
    (insertDesc r l).Pairwise (fun a b => b.pnl ≤ a.pnl) := by
  induction l with
  | nil => simp [insertDesc]
  | cons x xs ih =>
    simp only [insertDesc]
    split
    · rename_i hx
      refine List.Pairwise.cons ?_ h
      intro b hb
      rcases List.mem_cons.mp hb with hbx | hbxs
      · subst hbx; exact hx
      · exact le_trans (List.rel_of_pairwise_cons h hbxs) hx
    · rename_i hx
      refine List.Pairwise.cons ?_ (ih (List.Pairwise.of_cons h))
      intro b hb
      rcases List.mem_cons.mp ((insertDesc_perm r xs).mem_iff.mp hb) with hbr | hbxs
      · subst hbr; exact le_of_lt (lt_of_not_le hx)
      · exact List.rel_of_pairwise_cons h hbxs

theorem pairwise_sortByPnlDesc (l : List RankedTrader) :
    (sortByPnlDesc l).Pairwise (fun a b => b.pnl ≤ a.pnl) := by
  induction l with
  | nil => simp [sortByPnlDesc]
  | cons x xs ih => exact pairwise_insertDesc x ih

theorem filter_insertDesc (q : Rat) (r : RankedTrader) (l : List RankedTrader) :
    (insertDesc r l).filter (fun x => x.pnl == q) =
      if r.pnl = q then r :: l.filter (fun x => x.pnl == q)
      else l.filter (fun x => x.pnl == q) := by
  induction l with
  | nil => by_cases hr : r.pnl = q <;> simp [insertDesc, List.filter_cons, hr]
  | cons x xs ih =>
    simp only [insertDesc]
    split
    · rw [List.filter_cons]
      by_cases hr : r.pnl = q <;> simp [hr]
    · rename_i hx
      rw [List.filter_cons, ih, List.filter_cons]
      have hlt : r.pnl < x.pnl := lt_of_not_le hx
      by_cases hr : r.pnl = q
      · have hxq : ¬x.pnl = q := fun hxe =>
          absurd (hxe.trans hr.symm).symm (ne_of_lt hlt)
        simp [hr, hxq]
      · by_cases hxq : x.pnl = q <;> simp [hr, hxq]

theorem filter_sortByPnlDesc (q : Rat) (l : List RankedTrader) :
    (sortByPnlDesc l).filter (fun x => x.pnl == q) =
      l.filter (fun x => x.pnl == q) := by
  induction l with
  | nil => rfl
  | cons x xs ih =>
    simp only [sortByPnlDesc, filter_insertDesc, ih, List.filter_cons]
    by_cases h : x.pnl = q <;> simp [h]

/-! ### Unfolding lemmas for the pipeline -/

theorem process_traders_eq_some (traders : List Trader) (period : String) (n : Nat)
    (out : List RankedTrader) :
    process_traders traders period n = some out ↔
      ∃ P, build_processed traders period = some P ∧
        out = (sortByPnlDesc P).take n := by
  simp only [process_traders, Option.map_eq_some']
  constructor
  · rintro ⟨P, h1, h2⟩
    exact ⟨P, h1, h2.symm⟩
  · rintro ⟨P, h1, h2⟩
    exact ⟨P, h1, h2.symm⟩

theorem toRanked_pnl {trader : Trader} {pd : PnlData} {r : RankedTrader}
    (h : toRanked trader pd = some r) : r.pnl = pd.pnl := by
  simp only [toRanked, Option.bind_eq_bind, Option.bind_eq_some, Option.pure_def,
    Option.some_inj] at h
  obtain ⟨av, _, hr⟩ := h
  subst hr
  rfl

theorem build_processed_pnl_ne_zero :
    ∀ (traders : List Trader) (period : String) (P : List RankedTrader),
      build_processed traders period = some P → ∀ r ∈ P, r.pnl ≠ 0
  | [], _, P, hP => by
    simp only [build_processed, Option.some_inj] at hP
    subst hP
    intro r hr
    cases hr
  | trader :: rest, period, P, hP => by
    simp only [build_processed, Option.bind_eq_bind, Option.bind_eq_some] at hP
    obtain ⟨pd, _, hP⟩ := hP
    by_cases hz : pd.pnl = 0
    · rw [if_pos hz] at hP
      exact build_processed_pnl_ne_zero rest period P hP
    · rw [if_neg hz] at hP
      simp only [Option.bind_eq_some, Option.pure_def, Option.some_inj] at hP
      obtain ⟨r0, hr0, rs, hrs, hP⟩ := hP
      subst hP
      intro r hr
      rcases List.mem_cons.mp hr with h | h
      · subst h
        rw [toRanked_pnl hr0]
        exact hz
      · exact build_processed_pnl_ne_zero rest period rs hrs r h

/-! ### Sample data used by witnesses -/

/-- A sample trader with day pnl 5 and all optional fields absent. -/
def sampleTrader : Trader :=
  ⟨some "0xabc", none, none, some [⟨"day", some (.num 5), none, none⟩]⟩

/-- The ranked record `process_traders` builds from `sampleTrader`. -/
def sampleRanked : RankedTrader := ⟨"0xabc", none, 0, 5, 0, 0⟩

/-- A sample trader whose day pnl is exactly zero (roi nonzero). -/
def zeroTrader : Trader :=
  ⟨some "0xzero", none, none, some [⟨"day", some (.num 0), some (.num 3), none⟩]⟩

/-! ### C1 -/

/-- C1: for every input list of trader records, every window key and limit
N = 10, a ranked list returned by `process_traders` has length at most 10
and is sorted descending by pnl: every adjacent pair (i, i+1) satisfies
pnl[i] ≥ pnl[i+1]. -/
theorem C1_ranked_list_bounded_and_sorted (traders : List Trader) (period : String)
    (out : List RankedTrader) (h : process_traders traders period 10 = some out) :
    out.length ≤ 10 ∧ List.Chain' (fun a b => b.pnl ≤ a.pnl) out := by
  obtain ⟨P, hP, rfl⟩ := (process_traders_eq_some traders period 10 out).mp h
  refine ⟨List.length_take_le 10 _, ?_⟩
  exact (List.Pairwise.sublist (List.take_sublist 10 _) (pairwise_sortByPnlDesc P)).chain'

/-- Witness for C1 at a concrete input. -/
theorem C1_witness :
    [sampleRanked].length ≤ 10 ∧ List.Chain' (fun a b => b.pnl ≤ a.pnl) [sampleRanked] :=
  C1_ranked_list_bounded_and_sorted [sampleTrader] "day" [sampleRanked] (by decide)

/-! ### C2 -/

/-- C2: a trader in the input whose extracted pnl for the requested window
is exactly zero never appears in that window's ranked list, regardless of
its other windows' values: the record `process_traders` would map it to is
not a member of the returned list. -/
theorem C2_zero_pnl_never_ranked (traders : List Trader) (period : String)
    (out : List RankedTrader) (t : Trader) (pd : PnlData) (r : RankedTrader)
    (hout : process_traders traders period 10 = some out)
    (ht : t ∈ traders)
    (hpd : get_pnl_data t period = some pd) (hz : pd.pnl = 0)
    (hr : toRanked t pd = some r) :
    r ∉ out := by
  obtain ⟨P, hP, rfl⟩ := (process_traders_eq_some traders period 10 out).mp hout
  intro hmem
  have h1 : r ∈ sortByPnlDesc P := List.take_subset 10 _ hmem
  have h2 : r ∈ P := (sortByPnlDesc_perm P).mem_iff.mp h1
  exact build_processed_pnl_ne_zero traders period P hP r h2 ((toRanked_pnl hr).trans hz)

/-- Witness for C2 at a concrete input. -/
theorem C2_witness : (⟨"0xzero", none, 0, 0, 3, 0⟩ : RankedTrader) ∉ [sampleRanked] :=
  C2_zero_pnl_never_ranked [sampleTrader, zeroTrader] "day" [sampleRanked]
    zeroTrader ⟨0, 3, 0⟩ ⟨"0xzero", none, 0, 0, 3, 0⟩
    (by decide) (by decide) (by decide) rfl (by decide)

/-! ### C5 -/

theorem findPnl_of_find?_eq_none (period : String) :
    ∀ (l : List WPEntry), l.find? (fun e => e.key == period) = none →
      findPnl period l = some ⟨0, 0, 0⟩
  | [], _ => rfl
  | e :: rest, h => by
    rw [List.find?_cons] at h
    split at h
    · cases h
    · rename_i hk
      simp only [findPnl, hk, Bool.false_eq_true, if_false]
      exact findPnl_of_find?_eq_none period rest h

theorem findPnl_of_find?_eq_some (period : String) :
    ∀ (l : List WPEntry) (e : WPEntry), l.find? (fun x => x.key == period) = some e →
      findPnl period l =
        match coerceField e.pnl, coerceField e.roi, coerceField e.vlm with
        | some p, some r, some v => some ⟨p, r, v⟩
        | _, _, _ => none
  | [], _, h => by cases h
  | x :: rest, e, h => by
    rw [List.find?_cons] at h
    split at h
    · rename_i hk
      cases h
      simp only [findPnl, hk, if_true]
    · rename_i hk
      simp only [findPnl, hk, Bool.false_eq_true, if_false]
      exact findPnl_of_find?_eq_some period rest e h

/-- C5: `get_pnl_data` returns the `{pnl, roi, volume}` of the first entry of
the trader's window-performance sequence whose key matches the requested
window, each field coerced to a float (a missing field coercing to 0);
when no entry matches — in particular when `windowPerformances` is absent —
it returns exactly `{pnl: 0, roi: 0, volume: 0}`. -/
theorem C5_get_pnl_data_first_match (trader : Trader) (period : String) :
    ((trader.windowPerformances.getD []).find? (fun e => e.key == period) = none →
      get_pnl_data trader period = some ⟨0, 0, 0⟩) ∧
    (∀ e, (trader.windowPerformances.getD []).find? (fun e => e.key == period) = some e →
      ∀ p r v, coerceField e.pnl = some p → coerceField e.roi = some r →
        coerceField e.vlm = some v →
        get_pnl_data trader period = some ⟨p, r, v⟩) := by
  constructor
  · intro h
    exact findPnl_of_find?_eq_none period _ h
  · intro e he p r v hp hr hv
    have := findPnl_of_find?_eq_some period _ e he
    rw [get_pnl_data, this, hp, hr, hv]

/-- Witness for C5 at a concrete input. -/
theorem C5_witness : get_pnl_data sampleTrader "day" = some ⟨5, 0, 0⟩ :=
  (C5_get_pnl_data_first_match sampleTrader "day").2
    ⟨"day", some (.num 5), none, none⟩ (by decide) 5 0 0 (by decide) (by decide) (by decide)

/-! ### C6 -/

/-- A trader whose matched day entry carries a pnl string `float` rejects. -/
def badTrader : Trader :=
  ⟨some "0xbad", none, none, some [⟨"day", some (.strBad "oops"), none, none⟩]⟩

/-- C6 counterexample: on a trader whose matching window entry has a pnl
field that is present but not coercible to floating-point, `get_pnl_data`
does not return a result — `float` raises `ValueError` (modelled by
`none`) instead of defaulting, so it is not failure-free on such inputs. -/
theorem C6_counterexample : get_pnl_data badTrader "day" = none := by decide

theorem findPnl_isSome (period : String) :
    ∀ (l : List WPEntry),
      (∀ e ∈ l, e.key == period →
        (coerceField e.pnl).isSome ∧ (coerceField e.roi).isSome ∧
          (coerceField e.vlm).isSome) →
      (findPnl period l).isSome
  | [], _ => rfl
  | e :: rest, h => by
    simp only [findPnl]
    split
    · rename_i hk
      obtain ⟨hp, hr, hv⟩ := h e (List.mem_cons_self e rest) hk
      obtain ⟨p, hp⟩ := Option.isSome_iff_exists.mp hp
      obtain ⟨r, hr⟩ := Option.isSome_iff_exists.mp hr
      obtain ⟨v, hv⟩ := Option.isSome_iff_exists.mp hv
      rw [hp, hr, hv]
      rfl
    · exact findPnl_isSome period rest fun e he => h e (List.mem_cons_of_mem _ he)

/-- C6 (amended): `get_pnl_data` is a pure total function that never raises
provided every matching entry of the trader's window-performance sequence
has pnl, roi and vlm fields that are absent (defaulting to 0) or coercible
to floating-point; when a present field of the matching entry is not
coercible, `float` raises `ValueError`. -/
theorem C6_amended_total_when_coercible (trader : Trader) (period : String)
    (h : ∀ e ∈ trader.windowPerformances.getD [], e.key == period →
      (coerceField e.pnl).isSome ∧ (coerceField e.roi).isSome ∧
        (coerceField e.vlm).isSome) :
    (get_pnl_data trader period).isSome :=
  findPnl_isSome period _ h

/-- Witness for the amended C6 at a concrete input. -/
theorem C6_witness : (get_pnl_data sampleTrader "day").isSome :=
  C6_amended_total_when_coercible sampleTrader "day" (by decide)

/-! ### C4 -/

theorem extract_positions_mem :
    ∀ (aps : List AssetPosition) (ps : List Position), extract_positions aps = some ps →
      ∀ p ∈ ps, ∃ ap ∈ aps, ∃ pos, ap.position = some pos ∧
        ∃ szi, coerceField pos.szi = some szi ∧ szi ≠ 0 ∧ p = mkPosition pos szi
  | [], ps, hps => by
    simp only [extract_positions, Option.some_inj] at hps
    subst hps
    intro p hp
    cases hp
  | ap :: rest, ps, hps => by
    simp only [extract_positions] at hps
    match hpos : ap.position with
    | none =>
      rw [hpos] at hps
      intro p hp
      obtain ⟨ap', hap', h⟩ := extract_positions_mem rest ps hps p hp
      exact ⟨ap', List.mem_cons_of_mem _ hap', h⟩
    | some pos =>
      rw [hpos] at hps
      simp only [Option.bind_eq_bind, Option.bind_eq_some] at hps
      obtain ⟨szi, hszi, hps⟩ := hps
      by_cases hz : szi = 0
      · rw [if_pos hz] at hps
        intro p hp
        obtain ⟨ap', hap', h⟩ := extract_positions_mem rest ps hps p hp
        exact ⟨ap', List.mem_cons_of_mem _ hap', h⟩
      · rw [if_neg hz] at hps
        simp only [Option.bind_eq_some, Option.pure_def, Option.some_inj] at hps
        obtain ⟨ps', hps', hcons⟩ := hps
        subst hcons
        intro p hp
        rcases List.mem_cons.mp hp with h | h
        · exact ⟨ap, List.mem_cons_self ap rest, pos, hpos, szi, hszi, hz, h⟩
        · obtain ⟨ap', hap', h⟩ := extract_positions_mem rest ps' hps' p h
          exact ⟨ap', List.mem_cons_of_mem _ hap', h⟩

/-- C4: every position returned by `fetch_positions` for a successfully
parsed response originates from an asset position whose signed size `szi`
is nonzero (zero-size entries are excluded); its `size` is the absolute
value of `szi`, hence positive, and the sign is encoded only in
`direction`: "Long" if `szi > 0`, "Short" otherwise. -/
theorem C4_positions_nonzero_abs_size (aps : List AssetPosition) (p : Position)
    (hp : p ∈ fetch_positions (FetchResult.success aps)) :
    0 < p.size ∧ (p.direction = "Long" ∨ p.direction = "Short") ∧
    ∃ ap ∈ aps, ∃ pos, ap.position = some pos ∧
      ∃ szi, coerceField pos.szi = some szi ∧ szi ≠ 0 ∧ p.size = |szi| ∧
        p.direction = (if 0 < szi then "Long" else "Short") := by
  simp only [fetch_positions] at hp
  match hex : extract_positions aps with
  | none =>
    rw [hex] at hp
    cases hp
  | some ps =>
    rw [hex] at hp
    obtain ⟨ap, hap, pos, hpos, szi, hszi, hz, hmk⟩ :=
      extract_positions_mem aps ps hex p hp
    subst hmk
    refine ⟨abs_pos.mpr hz, ?_, ap, hap, pos, hpos, szi, hszi, hz, rfl, rfl⟩
    by_cases hpos : 0 < szi
    · left
      simp [mkPosition, hpos]
    · right
      simp [mkPosition, hpos]

/-- A sample parsed asset position with signed size 2 on ETH. -/
def sampleAssetPos : AssetPosition :=
  ⟨some ⟨some (.strNum 2), some "ETH", none, none, none, none, none, none⟩⟩

/-- The position record extracted from `sampleAssetPos`. -/
def samplePos : Position := ⟨"ETH", "Long", 2, "0", 0, "cross", "0", "0", "0", ""⟩

/-- Witness for C4 at a concrete input. -/
theorem C4_witness :
    0 < samplePos.size ∧ (samplePos.direction = "Long" ∨ samplePos.direction = "Short") ∧
    ∃ ap ∈ [sampleAssetPos], ∃ pos, ap.position = some pos ∧
      ∃ szi, coerceField pos.szi = some szi ∧ szi ≠ 0 ∧ samplePos.size = |szi| ∧
        samplePos.direction = (if 0 < szi then "Long" else "Short") :=
  C4_positions_nonzero_abs_size [sampleAssetPos] samplePos (by decide)

/-! ### C3 -/

/-- C3: if the leaderboard fetch fails (network error, non-2xx status or
decode error) or yields an empty trader list, `main` terminates early
without producing a snapshot: the file write at the end of `main` is
unreachable when `fetch_leaderboard` returns the empty list. -/
theorem C3_empty_leaderboard_aborts (w : World)
    (h : w.leaderboardResp = FetchResult.failure ∨
      fetch_leaderboard w.leaderboardResp = []) :
    mainRun w = none := by
  have hempty : fetch_leaderboard w.leaderboardResp = [] := by
    rcases h with h | h
    · rw [h]
      rfl
    · exact h
  simp [mainRun, hempty]

/-- A run in which every fetch fails. -/
def failWorld : World :=
  ⟨FetchResult.failure, fun _ => FetchResult.failure, "2026-01-01T00:00:00"⟩

/-- Witness for C3 at a concrete input. -/
theorem C3_witness : mainRun failWorld = none :=
  C3_empty_leaderboard_aborts failWorld (Or.inl rfl)

/-! ### C10 -/

/-- C10: when the leaderboard request succeeds but the body lacks the
`leaderboardRows` key or maps it to the empty list, `fetch_leaderboard`
returns the empty list — indistinguishable at the orchestrator from a
fetch failure — and `main` aborts without writing the output file. -/
theorem C10_empty_rows_indistinguishable (w : World) (body : LeaderboardBody)
    (hw : w.leaderboardResp = FetchResult.success body)
    (h : body.leaderboardRows = none ∨ body.leaderboardRows = some []) :
    fetch_leaderboard (FetchResult.success body) = [] ∧
    fetch_leaderboard (FetchResult.success body) =
      fetch_leaderboard FetchResult.failure ∧
    mainRun w = none := by
  have hempty : fetch_leaderboard (FetchResult.success body) = [] := by
    rcases h with h | h <;> simp [fetch_leaderboard, h]
  have hweq : fetch_leaderboard w.leaderboardResp = [] := by
    rw [hw]
    exact hempty
  exact ⟨hempty, hempty, by simp [mainRun, hweq]⟩

/-- A run whose leaderboard body maps `leaderboardRows` to the empty list. -/
def emptyRowsWorld : World :=
  ⟨FetchResult.success ⟨some []⟩, fun _ => FetchResult.failure, "2026-01-01T00:00:00"⟩

/-- Witness for C10 at a concrete input. -/
theorem C10_witness :
    fetch_leaderboard (FetchResult.success ⟨some []⟩) = [] ∧
    fetch_leaderboard (FetchResult.success ⟨some []⟩) =
      fetch_leaderboard FetchResult.failure ∧
    mainRun emptyRowsWorld = none :=
  C10_empty_rows_indistinguishable emptyRowsWorld ⟨some []⟩ rfl (Or.inr rfl)

/-! ### C8 -/

theorem lookup_map_self (f : String → List Position) :
    ∀ (l : List String) (a : String), a ∈ l →
      (l.map (fun x => (x, f x))).lookup a = some (f a)
  | [], a, ha => absurd ha (List.not_mem_nil a)
  | x :: xs, a, ha => by
    simp only [List.map_cons, List.lookup]
    by_cases hax : a = x
    · subst hax
      simp
    · have hbeq : (a == x) = false := beq_eq_false_iff_ne.mpr hax
      rw [hbeq]
      refine lookup_map_self f xs a ?_
      rcases List.mem_cons.mp ha with h | h
      · exact absurd h hax
      · exact h

theorem mainRun_eq_some (w : World) (dt wt : List RankedTrader)
    (hne : (fetch_leaderboard w.leaderboardResp).isEmpty = false)
    (hd : process_traders (fetch_leaderboard w.leaderboardResp) "day" 10 = some dt)
    (hwk : process_traders (fetch_leaderboard w.leaderboardResp) "week" 10 = some wt) :
    mainRun w = some
      ⟨dt.map (attachPositions (((dt ++ wt).map (fun t => t.address)).dedup.map
          (fun a => (a, fetch_positions (w.positionsResp a))))),
       wt.map (attachPositions (((dt ++ wt).map (fun t => t.address)).dedup.map
          (fun a => (a, fetch_positions (w.positionsResp a))))),
       w.utcNow ++ "Z"⟩ := by
  simp [mainRun, hne, hd, hwk]

/-- C8: if the position fetch fails for one address, the run still
completes and writes a snapshot: every ranked trader carrying the failed
address gets an empty position list, and every other ranked trader gets
exactly the positions fetched for its own address. -/
theorem C8_position_failure_degrades (w : World) (addr : String)
    (dt wt : List RankedTrader)
    (hne : fetch_leaderboard w.leaderboardResp ≠ [])
    (hd : process_traders (fetch_leaderboard w.leaderboardResp) "day" 10 = some dt)
    (hwk : process_traders (fetch_leaderboard w.leaderboardResp) "week" 10 = some wt)
    (hfail : w.positionsResp addr = FetchResult.failure) :
    ∃ snap, mainRun w = some snap ∧
      snap.daily.length = dt.length ∧ snap.weekly.length = wt.length ∧
      ∀ t ∈ snap.daily ++ snap.weekly,
        t.positions = fetch_positions (w.positionsResp t.address) ∧
        (t.address = addr → t.positions = []) := by
  have hne' : (fetch_leaderboard w.leaderboardResp).isEmpty = false := by
    simpa [List.isEmpty_iff] using hne
  refine ⟨_, mainRun_eq_some w dt wt hne' hd hwk, by simp, by simp, ?_⟩
  intro t ht
  have hmem : ∃ t0 ∈ dt ++ wt, t = attachPositions
      (((dt ++ wt).map (fun t => t.address)).dedup.map
        (fun a => (a, fetch_positions (w.positionsResp a)))) t0 := by
    simp only [Snapshot.daily, Snapshot.weekly] at ht
    rcases List.mem_append.mp ht with h | h
    · obtain ⟨t0, ht0, rfl⟩ := List.mem_map.mp h
      exact ⟨t0, List.mem_append.mpr (Or.inl ht0), rfl⟩
    · obtain ⟨t0, ht0, rfl⟩ := List.mem_map.mp h
      exact ⟨t0, List.mem_append.mpr (Or.inr ht0), rfl⟩
  obtain ⟨t0, ht0, rfl⟩ := hmem
  have haddr : t0.address ∈ ((dt ++ wt).map (fun t => t.address)).dedup :=
    List.mem_dedup.mpr (List.mem_map.mpr ⟨t0, ht0, rfl⟩)
  have hlookup := lookup_map_self (fun a => fetch_positions (w.positionsResp a)) _ _ haddr
  have hpos : (attachPositions
      (((dt ++ wt).map (fun t => t.address)).dedup.map
        (fun a => (a, fetch_positions (w.positionsResp a)))) t0).positions =
      fetch_positions (w.positionsResp t0.address) := by
    simp only [attachPositions, hlookup, Option.getD_some]
  refine ⟨hpos, fun heq => ?_⟩
  rw [hpos]
  have : t0.address = addr := heq
  rw [this, hfail]
  rfl

/-- A run with one day-qualifying trader whose position fetch fails. -/
def oneTraderWorld : World :=
  ⟨FetchResult.success ⟨some [sampleTrader]⟩, fun _ => FetchResult.failure,
   "2026-01-01T00:00:00"⟩

/-- Witness for C8 at a concrete input. -/
theorem C8_witness :
    ∃ snap, mainRun oneTraderWorld = some snap ∧
      snap.daily.length = [sampleRanked].length ∧
      snap.weekly.length = ([] : List RankedTrader).length ∧
      ∀ t ∈ snap.daily ++ snap.weekly,
        t.positions = fetch_positions (oneTraderWorld.positionsResp t.address) ∧
        (t.address = "0xabc" → t.positions = []) :=
  C8_position_failure_degrades oneTraderWorld "0xabc" [sampleRanked] []
    (by decide) (by decide) (by decide) rfl

/-! ### C9 -/

/-- Sample traders for the tie-stability witness: pnl 7, then two ties at 5. -/
def tieTraderA : Trader :=
  ⟨some "0xa", none, none, some [⟨"day", some (.num 7), none, none⟩]⟩

/-- Second tie-witness trader, day pnl 5. -/
def tieTraderB : Trader :=
  ⟨some "0xb", none, none, some [⟨"day", some (.num 5), none, none⟩]⟩

/-- Third tie-witness trader, day pnl 5, later in input order. -/
def tieTraderC : Trader :=
  ⟨some "0xc", none, none, some [⟨"day", some (.num 5), none, none⟩]⟩

/-- C9: `process_traders` is deterministic — running it twice on the same
input yields identical output — and the sort is stable: for every pnl
value `q`, the output records with pnl `q` form a sublist of (appear in
the same relative order as) the processed input records with pnl `q`. -/
theorem C9_deterministic_stable_ties (traders : List Trader) (period : String)
    (n : Nat) (P out : List RankedTrader)
    (hP : build_processed traders period = some P)
    (hout : process_traders traders period n = some out) :
    process_traders traders period n = process_traders traders period n ∧
    ∀ q : Rat, List.Sublist (out.filter (fun r => r.pnl == q))
      (P.filter (fun r => r.pnl == q)) := by
  refine ⟨rfl, ?_⟩
  obtain ⟨P', hP', hout'⟩ := (process_traders_eq_some traders period n out).mp hout
  rw [hP] at hP'
  cases hP'
  subst hout'
  intro q
  have h1 : List.Sublist ((sortByPnlDesc P).take n) (sortByPnlDesc P) :=
    List.take_sublist n _
  have h2 := h1.filter (fun r => r.pnl == q)
  rwa [filter_sortByPnlDesc] at h2

/-- Witness for C9 at a concrete input with a tie at pnl 5. -/
theorem C9_witness :
    process_traders [tieTraderA, tieTraderB, tieTraderC] "day" 10 =
      process_traders [tieTraderA, tieTraderB, tieTraderC] "day" 10 ∧
    ∀ q : Rat, List.Sublist
      (([⟨"0xa", none, 0, 7, 0, 0⟩, ⟨"0xb", none, 0, 5, 0, 0⟩,
         ⟨"0xc", none, 0, 5, 0, 0⟩] : List RankedTrader).filter (fun r => r.pnl == q))
      (([⟨"0xa", none, 0, 7, 0, 0⟩, ⟨"0xb", none, 0, 5, 0, 0⟩,
         ⟨"0xc", none, 0, 5, 0, 0⟩] : List RankedTrader).filter (fun r => r.pnl == q)) :=
  C9_deterministic_stable_ties [tieTraderA, tieTraderB, tieTraderC] "day" 10
    [⟨"0xa", none, 0, 7, 0, 0⟩, ⟨"0xb", none, 0, 5, 0, 0⟩, ⟨"0xc", none, 0, 5, 0, 0⟩]
    [⟨"0xa", none, 0, 7, 0, 0⟩, ⟨"0xb", none, 0, 5, 0, 0⟩, ⟨"0xc", none, 0, 5, 0, 0⟩]
    (by decide) (by decide)

/-! ### C7 -/

/-- A qualifying trader with the given address and day pnl 5. -/
def mkTieTrader (a : String) : Trader :=
  ⟨some a, none, none, some [⟨"day", some (.num 5), none, none⟩]⟩

/-- The ranked record `process_traders` maps `mkTieTrader a` to. -/
def tieRecord (a : String) : RankedTrader := ⟨a, none, 0, 5, 0, 0⟩

/-- Eleven qualifying traders, all with day pnl 5. -/
def elevenTraders : List Trader :=
  ["a0", "a1", "a2", "a3", "a4", "a5", "a6", "a7", "a8", "a9", "a10"].map mkTieTrader

/-- The processed (pre-sort) list for `elevenTraders`. -/
def cexP : List RankedTrader :=
  ["a0", "a1", "a2", "a3", "a4", "a5", "a6", "a7", "a8", "a9", "a10"].map tieRecord

/-- The day top-10 ranked list for `elevenTraders`. -/
def cexOut : List RankedTrader :=
  ["a0", "a1", "a2", "a3", "a4", "a5", "a6", "a7", "a8", "a9"].map tieRecord

/-- C7 counterexample: with eleven qualifying traders all at pnl 5, trader
"a9" appears in the ranked list although neither side of the claimed
condition holds: eleven traders qualify, so the list has no capacity, and
its pnl does not exceed the 10th-ranked pnl — it *is* the 10th-ranked
entry. The claimed "if and only if" therefore fails on the code. -/
theorem C7_counterexample :
    build_processed elevenTraders "day" = some cexP ∧
    process_traders elevenTraders "day" 10 = some cexOut ∧
    tieRecord "a9" ∈ cexOut ∧
    ¬cexP.length < 10 ∧
    cexOut[9]? = some (tieRecord "a9") ∧
    ¬(tieRecord "a9").pnl > (tieRecord "a9").pnl := by decide

/-- C7 (amended): a trader record with a matching window entry of nonzero
pnl — a record `r` of the processed list — appears in the ranked list *if*
fewer than 10 traders qualify or its pnl strictly exceeds the 10th-ranked
pnl, and *only if* fewer than 10 traders qualify or its pnl is at least
the 10th-ranked pnl; at the threshold itself, ties are broken by input
order, so exceeding the threshold is sufficient but not necessary. -/
theorem C7_amended_capacity_or_threshold (traders : List Trader) (period : String)
    (P out : List RankedTrader) (r : RankedTrader)
    (hP : build_processed traders period = some P)
    (hout : process_traders traders period 10 = some out)
    (hr : r ∈ P) :
    (P.length < 10 → r ∈ out) ∧
    (∀ h9 : 9 < out.length, (out.get ⟨9, h9⟩).pnl < r.pnl → r ∈ out) ∧
    (r ∈ out → P.length < 10 ∨ ∃ h9 : 9 < out.length, (out.get ⟨9, h9⟩).pnl ≤ r.pnl) := by
  obtain ⟨P', hP', hout'⟩ := (process_traders_eq_some traders period 10 out).mp hout
  rw [hP] at hP'
  injection hP' with hPP
  subst hPP
  subst hout'
  have hlen : (sortByPnlDesc P).length = P.length := (sortByPnlDesc_perm P).length_eq
  have hpair := pairwise_sortByPnlDesc P
  have hrS : r ∈ sortByPnlDesc P := (sortByPnlDesc_perm P).mem_iff.mpr hr
  refine ⟨?_, ?_, ?_⟩
  · intro hcap
    rw [List.take_of_length_le (by omega)]
    exact hrS
  · intro h9 hgt
    have h9S : 9 < (sortByPnlDesc P).length := by
      have := h9
      rw [List.length_take] at this
      exact (Nat.lt_min.mp this).2
    have hout9 : (((sortByPnlDesc P).take 10).get ⟨9, h9⟩) =
        (sortByPnlDesc P).get ⟨9, h9S⟩ := by
      simp only [List.get_eq_getElem, List.getElem_take]
    obtain ⟨n, hn, hrn⟩ := List.mem_iff_getElem.mp hrS
    by_cases hn10 : n < 10
    · have hn' : n < ((sortByPnlDesc P).take 10).length := by
        rw [List.length_take]
        exact Nat.lt_min.mpr ⟨hn10, hn⟩
      have heq : ((sortByPnlDesc P).take 10).get ⟨n, hn'⟩ = r := by
        simp only [List.get_eq_getElem, List.getElem_take]
        exact hrn
      rw [← heq]
      exact List.getElem_mem hn'
    · exfalso
      have h9n : 9 < n := by omega
      have hle := List.pairwise_iff_getElem.mp hpair 9 n h9S hn h9n
      rw [hrn] at hle
      have hgt' : ((sortByPnlDesc P).get ⟨9, h9S⟩).pnl < r.pnl := by
        rw [← hout9]
        exact hgt
      exact absurd hle (not_le.mpr hgt')
  · intro hro
    by_cases hcap : P.length < 10
    · exact Or.inl hcap
    · right
      have holen : ((sortByPnlDesc P).take 10).length = 10 := by
        rw [List.length_take]
        omega
      have h9 : 9 < ((sortByPnlDesc P).take 10).length := by omega
      have h9S : 9 < (sortByPnlDesc P).length := by omega
      refine ⟨h9, ?_⟩
      have hout9 : (((sortByPnlDesc P).take 10).get ⟨9, h9⟩) =
          (sortByPnlDesc P).get ⟨9, h9S⟩ := by
        simp only [List.get_eq_getElem, List.getElem_take]
      obtain ⟨i, hi, hri⟩ := List.mem_iff_getElem.mp hro
      have hiS : i < (sortByPnlDesc P).length := by
        rw [holen] at hi
        omega
      have hriS : (sortByPnlDesc P).get ⟨i, hiS⟩ = r := by
        rw [← hri]
        simp only [List.get_eq_getElem, List.getElem_take]
      rw [hout9]
      rcases Nat.lt_or_ge i 9 with hi9 | hi9
      · have hrel := List.pairwise_iff_getElem.mp hpair i 9 hiS h9S hi9
        rw [← hriS]
        exact hrel
      · have hi9' : i = 9 := by
          rw [holen] at hi
          omega
        subst hi9'
        rw [← hriS]

/-- Witness for the amended C7 at a concrete input. -/
theorem C7_witness :
    (([⟨"0xa", none, 0, 7, 0, 0⟩, ⟨"0xb", none, 0, 5, 0, 0⟩,
       ⟨"0xc", none, 0, 5, 0, 0⟩] : List RankedTrader).length < 10 →
      (⟨"0xa", none, 0, 7, 0, 0⟩ : RankedTrader) ∈
        ([⟨"0xa", none, 0, 7, 0, 0⟩, ⟨"0xb", none, 0, 5, 0, 0⟩,
          ⟨"0xc", none, 0, 5, 0, 0⟩] : List RankedTrader)) ∧
    (∀ h9 : 9 < ([⟨"0xa", none, 0, 7, 0, 0⟩, ⟨"0xb", none, 0, 5, 0, 0⟩,
        ⟨"0xc", none, 0, 5, 0, 0⟩] : List RankedTrader).length,
      (([⟨"0xa", none, 0, 7, 0, 0⟩, ⟨"0xb", none, 0, 5, 0, 0⟩,
         ⟨"0xc", none, 0, 5, 0, 0⟩] : List RankedTrader).get ⟨9, h9⟩).pnl <
          (⟨"0xa", none, 0, 7, 0, 0⟩ : RankedTrader).pnl →
        (⟨"0xa", none, 0, 7, 0, 0⟩ : RankedTrader) ∈
          ([⟨"0xa", none, 0, 7, 0, 0⟩, ⟨"0xb", none, 0, 5, 0, 0⟩,
            ⟨"0xc", none, 0, 5, 0, 0⟩] : List RankedTrader)) ∧
    ((⟨"0xa", none, 0, 7, 0, 0⟩ : RankedTrader) ∈
        ([⟨"0xa", none, 0, 7, 0, 0⟩, ⟨"0xb", none, 0, 5, 0, 0⟩,
          ⟨"0xc", none, 0, 5, 0, 0⟩] : List RankedTrader) →
      ([⟨"0xa", none, 0, 7, 0, 0⟩, ⟨"0xb", none, 0, 5, 0, 0⟩,
        ⟨"0xc", none, 0, 5, 0, 0⟩] : List RankedTrader).length < 10 ∨
      ∃ h9 : 9 < ([⟨"0xa", none, 0, 7, 0, 0⟩, ⟨"0xb", none, 0, 5, 0, 0⟩,
          ⟨"0xc", none, 0, 5, 0, 0⟩] : List RankedTrader).length,
        (([⟨"0xa", none, 0, 7, 0, 0⟩, ⟨"0xb", none, 0, 5, 0, 0⟩,
           ⟨"0xc", none, 0, 5, 0, 0⟩] : List RankedTrader).get ⟨9, h9⟩).pnl ≤
          (⟨"0xa", none, 0, 7, 0, 0⟩ : RankedTrader).pnl) :=
  C7_amended_capacity_or_threshold [tieTraderA, tieTraderB, tieTraderC] "day"
    [⟨"0xa", none, 0, 7, 0, 0⟩, ⟨"0xb", none, 0, 5, 0, 0⟩, ⟨"0xc", none, 0, 5, 0, 0⟩]
    [⟨"0xa", none, 0, 7, 0, 0⟩, ⟨"0xb", none, 0, 5, 0, 0⟩, ⟨"0xc", none, 0, 5, 0, 0⟩]
    ⟨"0xa", none, 0, 7, 0, 0⟩ (by decide) (by decide) (by decide)
